import Mathlib

/-!
# Verification of the GENAI-4 scoring-and-simulation pipeline

Shallow embedding of the core pipeline of this repository
(files `main.py`, `app.py`, `promt.py`):

* product advertising-fitness scoring (`compute_margin_score`,
  `compute_tag_score`, `compute_visual_score`, `compute_product_ad_score`,
  `select_top_products` — identical in `main.py` (with a leading underscore
  on the sub-score helpers) and `app.py`);
* the audience-response simulation (`evaluate_ad`,
  `simulate_ad_for_consumer`, `evaluate_ad_on_audience` in `main.py`);
* the creative-generation clients (`MockLLMClient.generate_variants` and
  `MistralClient.generate_variants` in `promt.py`);
* best-per-channel selection (`pick_best_per_channel` in `main.py`).

Python floats are modelled by `ℚ` (the numeric literals appearing in the
source are all exactly representable); fallible Python code is modelled
with `Option`/`Except`, where `none`/`.error` stands for a raised
exception.  Random draws (`random.uniform`) are modelled as explicit
parameters ranging over the interval the source draws from.
-/

/-! ## Python-semantics helpers -/

/-- The clamping idiom `max(0.0, min(1.0, q))` used throughout the source. -/
def clamp01 (q : ℚ) : ℚ := max 0 (min 1 q)

/-- The integer Python's `round` picks for `q`: the nearest integer,
ties to even (banker's rounding), computed on exact rationals. -/
def pyRoundInt (q : ℚ) : ℤ :=
  if q - ⌊q⌋ < 1/2 then ⌊q⌋
  else if 1/2 < q - ⌊q⌋ then ⌊q⌋ + 1
  else if ⌊q⌋ % 2 = 0 then ⌊q⌋ else ⌊q⌋ + 1

/-- Python's `round(q, d)`, on exact rationals. -/
def pyRoundTo (d : ℕ) (q : ℚ) : ℚ :=
  (pyRoundInt (q * (10 : ℚ) ^ d) : ℚ) / (10 : ℚ) ^ d

/-- List-of-characters version of Python's `needle in hay` substring test:
`leadsWith n h` is `n` being a prefix of `h`. -/
def leadsWith : List Char → List Char → Bool
  | [], _ => true
  | _ :: _, [] => false
  | a :: as, b :: bs => a = b && leadsWith as bs

/-- Predicate `hasSub n h`: `n` occurs contiguously inside `h`. -/
def hasSub (n : List Char) : List Char → Bool
  | [] => leadsWith n []
  | c :: t => leadsWith n (c :: t) || hasSub n t

/-- Python's substring containment `needle in hay` on strings. -/
def pyIn (needle hay : String) : Bool :=
  hasSub needle.toList hay.toList

/-- Python `str.lower` restricted to the alphabets the source uses:
ASCII `A`-`Z` and Cyrillic `А`-`Я`/`Ё`. -/
def lowerChar (c : Char) : Char :=
  if 'A' ≤ c ∧ c ≤ 'Z' then Char.ofNat (c.toNat + 32)
  else if 'А' ≤ c ∧ c ≤ 'Я' then Char.ofNat (c.toNat + 32)
  else if c = 'Ё' then 'ё'
  else c

/-- Python's `s.lower()` for the strings manipulated by the source. -/
def lowerStr (s : String) : String := String.mk (s.toList.map lowerChar)

/-- Value of a run of decimal digits. -/
def digitsVal (l : List Char) : ℕ :=
  l.foldl (fun a c => a * 10 + (c.toNat - 48)) 0

/-- Split a character list at every occurrence of `c` (the pieces do not
contain `c`; `n + 1` pieces for `n` separators). -/
def splitOnChar (c : Char) : List Char → List (List Char)
  | [] => [[]]
  | x :: xs =>
    match splitOnChar c xs with
    | [] => [[]]
    | r :: rs => if x = c then [] :: r :: rs else (x :: r) :: rs

/-- Drop leading spaces. -/
def dropSpaces : List Char → List Char
  | [] => []
  | c :: t => if c = ' ' then dropSpaces t else c :: t

/-- Python's `str.strip()` for space characters: drop spaces at both ends. -/
def trimChars (l : List Char) : List Char :=
  (dropSpaces (dropSpaces l.reverse).reverse)

/-- Python's `float(s)` on the decimal-literal subset the catalog uses:
optional surrounding spaces, optional sign, digits with at most one dot
and at least one digit (`"12"`, `"12.5"`, `".5"`, `"5."`, `"-3"`).
`none` models the `ValueError` Python raises on anything else
(scientific notation / `inf` / `nan` are outside the modelled subset). -/
def pyFloatOfString (s : String) : Option ℚ :=
  let l := trimChars s.toList
  let signed : ℚ × List Char :=
    match l with
    | '-' :: t => (-1, t)
    | '+' :: t => (1, t)
    | _ => (1, l)
  match splitOnChar '.' signed.2 with
  | [a] =>
      if a ≠ [] ∧ a.all Char.isDigit then
        some (signed.1 * digitsVal a)
      else none
  | [a, b] =>
      if (a ≠ [] ∨ b ≠ []) ∧ a.all Char.isDigit ∧ b.all Char.isDigit then
        some (signed.1 * ((digitsVal a : ℚ)
          + (digitsVal b : ℚ) / (10 : ℚ) ^ b.length))
      else none
  | _ => none

/-- A JSON-style Python value as stored in a catalog record's numeric
fields: the key may be missing, hold `None`, a number, or a string. -/
inductive PyVal where
  | absent
  | pynone
  | num (q : ℚ)
  | str (s : String)
deriving DecidableEq

/-- The idiom `product.get(key, 0) or 0`: a missing key, `None`, `0` and `""` are
all replaced by the number `0`; truthy values pass through. -/
def getOr0 : PyVal → PyVal
  | .absent => .num 0
  | .pynone => .num 0
  | .num q => if q = 0 then .num 0 else .num q
  | .str s => if s = "" then .num 0 else .str s

/-- Python's `float(v)`; `none` models the raised
`ValueError`/`TypeError`. -/
def pyFloat : PyVal → Option ℚ
  | .num q => some q
  | .str s => pyFloatOfString s
  | .pynone => none
  | .absent => none

/-- Python's `isinstance(v, (int, float))`. -/
def PyVal.isNum : PyVal → Bool
  | .num _ => true
  | _ => false

/-- Python's `v is not None` for a value obtained via `product.get(key)`
(a missing key yields `None`). -/
def PyVal.isGiven : PyVal → Bool
  | .absent => false
  | .pynone => false
  | _ => true

/-- The `tags` field: missing, `None`, a list of strings, or one
comma-joined string. -/
inductive Tags where
  | missing
  | tnone
  | tlist (l : List String)
  | tstr (s : String)
deriving DecidableEq

/-! ## Catalog records and product scoring (`app.py` 129-184, identical to
`main.py` 35-97 up to a leading underscore on the helper names) -/

/-- A catalog record, restricted to the fields the scored pipeline reads.
String-valued fields use `Option String` (`none` = key missing), numeric
fields use `PyVal` so that malformed values are representable. -/
structure Product where
  name : Option String := none
  category : Option String := none
  description : Option String := none
  price : PyVal := .absent
  market_cost : PyVal := .absent
  margin : PyVal := .absent
  tags : Tags := .missing
deriving DecidableEq

/-- The normalization `tags = product.get("tags") or []` followed by
`if isinstance(tags, str): tags = [t.strip() for t in tags.split(",")]`. -/
def Product.tagList (p : Product) : List String :=
  match p.tags with
  | .missing => []
  | .tnone => []
  | .tlist l => l
  | .tstr s => if s = "" then [] else (s.splitOn ",").map String.trim

/-- The `margin_percent` chosen by `compute_margin_score` once the price
has been converted: the explicit numeric `margin` field if present, else
`(price - market_cost) / price * 100` when `price > 0` and `market_cost`
is not `None` (the conversion `float(market_cost)` may raise), else the
fixed default `30.0`. -/
def margin_percent_val (p : Product) (price : ℚ) : Option ℚ :=
  match p.margin with
  | .num m => some m
  | _ =>
    if 0 < price ∧ p.market_cost.isGiven then
      (pyFloat p.market_cost).map (fun mc => (price - mc) / price * 100)
    else some 30

/-- Embeds `compute_margin_score` (`app.py` 129-141; `main.py` 35-47 as
`_compute_margin_score`): `max(0.0, min(1.0, margin_percent / 80.0))`
after `price = float(product.get("price", 0) or 0)`.  `none` models a
raised conversion error (`float` on a malformed string). -/
def compute_margin_score (p : Product) : Option ℚ :=
  (pyFloat (getOr0 p.price)).bind (fun price =>
    (margin_percent_val p price).map (fun margin_percent =>
      clamp01 (margin_percent / 80)))

/-- Embeds `compute_tag_score` (`app.py` 144-157; `main.py` 50-63). -/
def compute_tag_score (p : Product) : ℚ :=
  let text := lowerStr (String.intercalate " " p.tagList)
  let score : ℚ := 0
    + (if ["новинка", "new", "2024"].any (fun k => pyIn k text) then 0.3 else 0)
    + (if ["яркий", "bright", "цветной", "дизайн"].any (fun k => pyIn k text) then 0.2 else 0)
    + (if ["bestseller", "хит", "hit", "топ"].any (fun k => pyIn k text) then 0.3 else 0)
  clamp01 score

/-- Embeds `compute_visual_score` (`app.py` 160-168; `main.py` 66-74). -/
def compute_visual_score (p : Product) : ℚ :=
  let text := lowerStr (p.description.getD "" ++ " " ++ p.category.getD "")
  let score : ℚ := 0
    + (if ["rgb", "подсветка", "amoled", "красив", "дизайн"].any (fun k => pyIn k text) then 0.4 else 0)
    + (if ["компакт", "минимализм", "тонкий"].any (fun k => pyIn k text) then 0.2 else 0)
  clamp01 score

/-- Embeds `compute_product_ad_score` (`app.py` 171-175; `main.py` 77-85):
`round(m * 0.5 + t * 0.3 + v * 0.2, 3)`; only the margin sub-score can
raise. -/
def compute_product_ad_score (p : Product) : Option ℚ :=
  (compute_margin_score p).map (fun m =>
    pyRoundTo 3 (m * 0.5 + compute_tag_score p * 0.3 + compute_visual_score p * 0.2))

/-- The scoring loop of `select_top_products`: attaches `_ad_score` to
every record (modelled as pairing the record with its score), aborting —
like the Python loop — on the first record whose scoring raises. -/
def score_catalog : List Product → Option (List (Product × ℚ))
  | [] => some []
  | p :: rest =>
    match compute_product_ad_score p with
    | none => none
    | some s =>
      match score_catalog rest with
      | none => none
      | some tail => some ((p, s) :: tail)

/-- Embeds `select_top_products` (`app.py` 178-184; `main.py` 88-97):
`sorted(scored, key=lambda x: x["_ad_score"], reverse=True)[:k]`.
CPython's `sorted` with `reverse=True` is a stable descending sort
(ties keep the original order), i.e. a stable merge sort under the
comparison `a.score ≥ b.score`. -/
def select_top_products (catalog : List Product) (k : ℕ) :
    Option (List (Product × ℚ)) :=
  (score_catalog catalog).map (fun scored =>
    (scored.mergeSort (fun a b => decide (b.2 ≤ a.2))).take k)

/-! ## Basic lemmas about the clamping and rounding helpers -/

theorem clamp01_nonneg (q : ℚ) : 0 ≤ clamp01 q := le_max_left 0 _

theorem clamp01_le_one (q : ℚ) : clamp01 q ≤ 1 :=
  max_le (by norm_num) (min_le_left 1 q)

theorem clamp01_eq_self {q : ℚ} (h0 : 0 ≤ q) (h1 : q ≤ 1) : clamp01 q = q := by
  unfold clamp01
  rw [min_eq_right h1, max_eq_right h0]

theorem clamp01_of_one_le {q : ℚ} (h : 1 ≤ q) : clamp01 q = 1 := by
  unfold clamp01
  rw [min_eq_left h]
  exact max_eq_right (by norm_num)

theorem clamp01_of_nonpos {q : ℚ} (h : q ≤ 0) : clamp01 q = 0 := by
  unfold clamp01
  rw [min_eq_right (h.trans (by norm_num)), max_eq_left h]

theorem clamp01_mono {a b : ℚ} (h : a ≤ b) : clamp01 a ≤ clamp01 b :=
  max_le_max le_rfl (min_le_min le_rfl h)

theorem pyRoundInt_nonneg {q : ℚ} (h : 0 ≤ q) : 0 ≤ pyRoundInt q := by
  unfold pyRoundInt
  have hf : (0 : ℤ) ≤ ⌊q⌋ := Int.floor_nonneg.mpr h
  split_ifs <;> omega

theorem pyRoundInt_le {q : ℚ} {n : ℤ} (h : q ≤ n) : pyRoundInt q ≤ n := by
  unfold pyRoundInt
  have hf : ⌊q⌋ ≤ n := by simpa using Int.floor_le_floor h
  have hfq : (⌊q⌋ : ℚ) ≤ q := Int.floor_le q
  split_ifs with h1 h2 h3
  · exact hf
  · -- the fractional part exceeds 1/2, so ⌊q⌋ + 1/2 < q ≤ n and ⌊q⌋ < n
    have hlt : (⌊q⌋ : ℚ) < (n : ℚ) := by linarith
    have : ⌊q⌋ < n := by exact_mod_cast hlt
    omega
  · exact hf
  · -- exact half: q = ⌊q⌋ + 1/2 < n, so ⌊q⌋ < n
    have h2' : q - ⌊q⌋ = 1/2 := le_antisymm (not_lt.mp h2) (not_lt.mp h1)
    have hlt : (⌊q⌋ : ℚ) < (n : ℚ) := by linarith
    have : ⌊q⌋ < n := by exact_mod_cast hlt
    omega

theorem pyRoundTo_nonneg {d : ℕ} {q : ℚ} (h : 0 ≤ q) : 0 ≤ pyRoundTo d q := by
  unfold pyRoundTo
  have hp : (0 : ℚ) < (10 : ℚ) ^ d := by positivity
  have h1 := pyRoundInt_nonneg (q := q * (10 : ℚ) ^ d) (by positivity)
  have h2 : (0 : ℚ) ≤ (pyRoundInt (q * (10 : ℚ) ^ d) : ℚ) := by exact_mod_cast h1
  positivity

theorem pyRoundTo_le_one {d : ℕ} {q : ℚ} (h : q ≤ 1) : pyRoundTo d q ≤ 1 := by
  unfold pyRoundTo
  have hp : (0 : ℚ) < (10 : ℚ) ^ d := by positivity
  have hq : q * (10 : ℚ) ^ d ≤ ((10 ^ d : ℤ) : ℚ) := by
    push_cast
    nlinarith
  have hr := pyRoundInt_le hq
  have hr' : (pyRoundInt (q * (10 : ℚ) ^ d) : ℚ) ≤ (10 : ℚ) ^ d := by
    exact_mod_cast hr
  rw [div_le_one hp]
  exact hr'

/-! ## Ranges of the sub-scores -/

theorem compute_margin_score_mem {p : Product} {m : ℚ}
    (h : compute_margin_score p = some m) : 0 ≤ m ∧ m ≤ 1 := by
  unfold compute_margin_score at h
  cases hp : pyFloat (getOr0 p.price) with
  | none => rw [hp] at h; simp at h
  | some price =>
    rw [hp, Option.some_bind] at h
    cases hv : margin_percent_val p price with
    | none => rw [hv] at h; simp at h
    | some mp =>
      rw [hv, Option.map_some'] at h
      cases h
      exact ⟨clamp01_nonneg _, clamp01_le_one _⟩

theorem compute_tag_score_mem (p : Product) :
    0 ≤ compute_tag_score p ∧ compute_tag_score p ≤ 1 :=
  ⟨clamp01_nonneg _, clamp01_le_one _⟩

theorem compute_visual_score_mem (p : Product) :
    0 ≤ compute_visual_score p ∧ compute_visual_score p ≤ 1 :=
  ⟨clamp01_nonneg _, clamp01_le_one _⟩

/-! ## Concrete catalog records used as evaluation inputs -/

/-- A record with every field missing: margin data is absent, so the
30%-margin default applies and both keyword scores are `0`. -/
def emptyProduct : Product := {}

theorem eval_tag_empty : compute_tag_score emptyProduct = 0 := by
  unfold compute_tag_score
  have c1 : (["новинка", "new", "2024"].any fun k => pyIn k (lowerStr (String.intercalate " " (Product.tagList emptyProduct)))) = false := by decide
  have c2 : (["яркий", "bright", "цветной", "дизайн"].any fun k => pyIn k (lowerStr (String.intercalate " " (Product.tagList emptyProduct)))) = false := by decide
  have c3 : (["bestseller", "хит", "hit", "топ"].any fun k => pyIn k (lowerStr (String.intercalate " " (Product.tagList emptyProduct)))) = false := by decide
  simp only [c1, c2, c3, if_false, Bool.false_eq_true]
  norm_num [clamp01]

theorem eval_visual_empty : compute_visual_score emptyProduct = 0 := by
  unfold compute_visual_score
  have c1 : (["rgb", "подсветка", "amoled", "красив", "дизайн"].any fun k => pyIn k (lowerStr ((emptyProduct.description.getD "") ++ " " ++ (emptyProduct.category.getD "")))) = false := by decide
  have c2 : (["компакт", "минимализм", "тонкий"].any fun k => pyIn k (lowerStr ((emptyProduct.description.getD "") ++ " " ++ (emptyProduct.category.getD "")))) = false := by decide
  simp only [c1, c2, if_false, Bool.false_eq_true]
  norm_num [clamp01]

theorem eval_margin_empty : compute_margin_score emptyProduct = some (3/8) := by
  unfold compute_margin_score margin_percent_val
  norm_num [emptyProduct, getOr0, pyFloat, PyVal.isGiven, clamp01]

theorem eval_score_empty : compute_product_ad_score emptyProduct = some (47/250) := by
  unfold compute_product_ad_score
  rw [eval_margin_empty, Option.map_some', eval_tag_empty, eval_visual_empty]
  norm_num [pyRoundTo, pyRoundInt]

/-! ## Claim C1 — composite score formula

The claim states the composite is rounded to 4 decimal places; the source
(`app.py` 175, `main.py` 85) rounds to 3.  On the all-defaults record the
weighted sum is `0.1875`, which rounds to `0.188` at 3 places but stays
`0.1875` at 4 places, refuting the claim as stated.  The amended claim
(rounding to 3 places, result in `[0,1]`) is proved below. -/

/-- C1 (counterexample): on the all-defaults record the sub-scores are
`(3/8, 0, 0)`, the weighted sum is `3/16 = 0.1875`, the code returns
`0.188 = 47/250`, but rounding the weighted sum to 4 decimal places
yields `0.1875 ≠ 0.188`: the score is not the 4-place rounding. -/
theorem claim1_counterexample :
    compute_margin_score emptyProduct = some (3/8)
    ∧ compute_tag_score emptyProduct = 0
    ∧ compute_visual_score emptyProduct = 0
    ∧ compute_product_ad_score emptyProduct = some (47/250)
    ∧ pyRoundTo 4 ((3/8 : ℚ) * 0.5 + 0 * 0.3 + 0 * 0.2) = 3/16
    ∧ (47/250 : ℚ) ≠ 3/16 := by
  refine ⟨eval_margin_empty, eval_tag_empty, eval_visual_empty, eval_score_empty, ?_, by norm_num⟩
  norm_num [pyRoundTo, pyRoundInt]

/-- C1 (amended): whenever scoring succeeds, the composite score equals
`0.5·margin + 0.3·tags + 0.2·visual` rounded to **3** decimal places, and
therefore lies in `[0, 1]`. -/
theorem claim1_composite_score : ∀ (p : Product) (q : ℚ),
    compute_product_ad_score p = some q →
    (∃ m, compute_margin_score p = some m ∧
      q = pyRoundTo 3 (m * 0.5 + compute_tag_score p * 0.3 + compute_visual_score p * 0.2))
    ∧ 0 ≤ q ∧ q ≤ 1 := by
  intro p q h
  unfold compute_product_ad_score at h
  cases hm : compute_margin_score p with
  | none => rw [hm] at h; simp at h
  | some m =>
    rw [hm, Option.map_some'] at h
    cases h
    obtain ⟨hm0, hm1⟩ := compute_margin_score_mem hm
    obtain ⟨ht0, ht1⟩ := compute_tag_score_mem p
    obtain ⟨hv0, hv1⟩ := compute_visual_score_mem p
    refine ⟨⟨m, rfl, rfl⟩, ?_, ?_⟩
    · exact pyRoundTo_nonneg (by nlinarith)
    · exact pyRoundTo_le_one (by nlinarith)

/-- C1 (witness): the amended theorem applied at the all-defaults record. -/
theorem claim1_witness : 0 ≤ (47/250 : ℚ) ∧ (47/250 : ℚ) ≤ 1 :=
  (claim1_composite_score emptyProduct (47/250) eval_score_empty).2

/-! ## Claim C2 — margin sub-score extremes and the 30% default -/

/-- C2: with a convertible price, (a) a margin percentage of at least 80
— whether taken from the explicit numeric `margin` field or derived as
`(price - market_cost) / price * 100` (`margin_percent_val` embeds that
selection) — gives margin sub-score `1.0`; (b) a margin percentage of at
most 0 gives `0.0`; (c) when the margin field is not numeric and there
is no usable price/market-cost pair (`price > 0` and `market_cost` not
`None`), the fixed default of 30% margin is substituted before dividing
by 80 and clamping, i.e. the result is `clamp01 (30 / 80) = 3/8`. -/
theorem claim2_margin_extremes : ∀ (p : Product) (m pq : ℚ),
    pyFloat (getOr0 p.price) = some pq →
    ((margin_percent_val p pq = some m → 80 ≤ m → compute_margin_score p = some 1)
     ∧ (margin_percent_val p pq = some m → m ≤ 0 → compute_margin_score p = some 0)
     ∧ (p.margin.isNum = false → ¬(0 < pq ∧ p.market_cost.isGiven = true) →
         compute_margin_score p = some (clamp01 (30 / 80)))
     ∧ clamp01 ((30 : ℚ) / 80) = 3/8) := by
  intro p m pq hp
  have hbase : ∀ mp : Option ℚ, margin_percent_val p pq = mp →
      compute_margin_score p = mp.map (fun y => clamp01 (y / 80)) := by
    intro mp hmp
    unfold compute_margin_score
    rw [hp, Option.some_bind, hmp]
  refine ⟨?_, ?_, ?_, by norm_num [clamp01]⟩
  · intro hmp h80
    rw [hbase _ hmp, Option.map_some']
    have : clamp01 (m / 80) = 1 := clamp01_of_one_le (by
      rw [le_div_iff₀ (by norm_num : (0:ℚ) < 80)]; linarith)
    rw [this]
  · intro hmp h0
    rw [hbase _ hmp, Option.map_some']
    have : clamp01 (m / 80) = 0 := clamp01_of_nonpos (by
      apply div_nonpos_of_nonpos_of_nonneg h0 (by norm_num))
    rw [this]
  · intro hnum hcond
    have hmp : margin_percent_val p pq = some 30 := by
      unfold margin_percent_val
      cases hm : p.margin with
      | num q => rw [hm] at hnum; simp [PyVal.isNum] at hnum
      | absent => rw [if_neg hcond]
      | pynone => rw [if_neg hcond]
      | str s => rw [if_neg hcond]
    rw [hbase _ hmp, Option.map_some']

/-- C2 (witness): the branches at concrete records — explicit margin
`100` gives score `1`; a derived margin of `90` (price `100`, market
cost `10`) also gives `1`; explicit margin `-5` gives `0`; and the
all-defaults record falls back to the 30% default. -/
theorem claim2_witness :
    compute_margin_score { margin := .num 100 } = some 1
    ∧ compute_margin_score { price := .num 100, market_cost := .num 10 } = some 1
    ∧ compute_margin_score { margin := .num (-5) } = some 0
    ∧ compute_margin_score emptyProduct = some (clamp01 (30 / 80)) :=
  ⟨(claim2_margin_extremes { margin := .num 100 } 100 0 rfl).1 rfl (by norm_num),
   (claim2_margin_extremes { price := .num 100, market_cost := .num 10 } 90 100
      (by norm_num [getOr0, pyFloat])).1
      (by norm_num [margin_percent_val, PyVal.isGiven, pyFloat]) (by norm_num),
   (claim2_margin_extremes { margin := .num (-5) } (-5) 0 rfl).2.1 rfl (by norm_num),
   (claim2_margin_extremes emptyProduct 0 0 rfl).2.2.1 rfl (by norm_num [PyVal.isGiven, emptyProduct])⟩

/-! ## Claim C9 — malformed numeric fields

The claim states malformed numeric fields (e.g. non-numeric strings)
never make scoring raise, falling back to `0.0`.  In the source
(`app.py` 130, `main.py` 36) `float(product.get("price", 0) or 0)` raises
`ValueError` on a non-numeric, non-empty price string — `or 0` only
rescues falsy values (missing, `None`, `0`, `""`).  The amended claim:
missing/`None`/empty price fields fall back without raising and a
malformed `margin` field never raises (the fallback path is taken), but a
non-numeric price string (or market-cost string, when used) raises. -/

/-- A record whose price is a non-numeric string. -/
def badPriceProduct : Product := { price := .str "expensive!" }

/-- C9 (counterexample): on a record with a non-numeric price string the
scoring functions raise (modelled by `none`) instead of falling back to a
numeric default. -/
theorem claim9_counterexample :
    compute_margin_score badPriceProduct = none
    ∧ compute_product_ad_score badPriceProduct = none := by
  have h : pyFloat (getOr0 badPriceProduct.price) = none := by decide
  constructor
  · unfold compute_margin_score; rw [h, Option.none_bind]
  · unfold compute_product_ad_score compute_margin_score
    rw [h, Option.none_bind, Option.map_none']

/-- C9 (amended): scoring never raises provided the price field converts
(in particular when it is missing, `None`, `0`, or an empty or numeric
string) and the market-cost conversion is either unused or succeeds; the
margin field may be arbitrary — a malformed margin never raises. -/
theorem claim9_no_raise : ∀ (p : Product) (pq : ℚ),
    pyFloat (getOr0 p.price) = some pq →
    (p.margin.isNum = true ∨ (pyFloat p.market_cost).isSome = true
      ∨ ¬(0 < pq ∧ p.market_cost.isGiven = true)) →
    (compute_margin_score p).isSome = true
    ∧ (compute_product_ad_score p).isSome = true := by
  intro p pq hp hcase
  have hmp : (margin_percent_val p pq).isSome = true := by
    unfold margin_percent_val
    cases hm : p.margin with
    | num q => simp
    | absent =>
      rcases hcase with hnum | hmc | hcond
      · rw [hm] at hnum; simp [PyVal.isNum] at hnum
      · split_ifs with hc
        · simpa using hmc
        · simp
      · rw [if_neg hcond]; simp
    | pynone =>
      rcases hcase with hnum | hmc | hcond
      · rw [hm] at hnum; simp [PyVal.isNum] at hnum
      · split_ifs with hc
        · simpa using hmc
        · simp
      · rw [if_neg hcond]; simp
    | str s =>
      rcases hcase with hnum | hmc | hcond
      · rw [hm] at hnum; simp [PyVal.isNum] at hnum
      · split_ifs with hc
        · simpa using hmc
        · simp
      · rw [if_neg hcond]; simp
  obtain ⟨mp, hmp'⟩ := Option.isSome_iff_exists.mp hmp
  have hms : compute_margin_score p = some (clamp01 (mp / 80)) := by
    unfold compute_margin_score
    rw [hp, Option.some_bind, hmp', Option.map_some']
  constructor
  · rw [hms]; rfl
  · unfold compute_product_ad_score
    rw [hms, Option.map_some']; rfl

/-- C9 (witness): the amended theorem applied at the all-defaults record
(missing price, missing market cost, missing margin). -/
theorem claim9_witness :
    (compute_margin_score emptyProduct).isSome = true
    ∧ (compute_product_ad_score emptyProduct).isSome = true :=
  claim9_no_raise emptyProduct 0 rfl
    (Or.inr (Or.inr (by norm_num [PyVal.isGiven, emptyProduct])))

/-! ## Claim C3 — `select_top_products` -/

/-- The comparison `select_top_products` sorts by: `a` may precede `b`
exactly when `a`'s score is at least `b`'s. -/
def byScoreDesc (a b : Product × ℚ) : Bool := decide (b.2 ≤ a.2)

theorem byScoreDesc_trans : ∀ (a b c : Product × ℚ),
    byScoreDesc a b → byScoreDesc b c → byScoreDesc a c := by
  intro a b c h1 h2
  simp only [byScoreDesc, decide_eq_true_eq] at *
  exact h2.trans h1

theorem byScoreDesc_total : ∀ (a b : Product × ℚ),
    byScoreDesc a b || byScoreDesc b a := by
  intro a b
  simp only [byScoreDesc, Bool.or_eq_true, decide_eq_true_eq]
  exact le_total b.2 a.2

theorem score_catalog_spec : ∀ {catalog : List Product}
    {scored : List (Product × ℚ)}, score_catalog catalog = some scored →
    scored.map Prod.fst = catalog
    ∧ ∀ x ∈ scored, compute_product_ad_score x.1 = some x.2 := by
  intro catalog
  induction catalog with
  | nil =>
    intro scored h
    unfold score_catalog at h
    cases h
    exact ⟨rfl, by intro x hx; cases hx⟩
  | cons p rest ih =>
    intro scored h
    unfold score_catalog at h
    cases hs : compute_product_ad_score p with
    | none => rw [hs] at h; cases h
    | some s =>
      rw [hs] at h
      cases ht : score_catalog rest with
      | none => rw [ht] at h; cases h
      | some tail =>
        rw [ht] at h
        cases h
        obtain ⟨ih1, ih2⟩ := ih ht
        constructor
        · simp [ih1]
        · intro x hx
          rcases List.mem_cons.mp hx with hx | hx
          · cases hx; exact hs
          · exact ih2 x hx

/-- C3: when scoring the catalog succeeds, `select_top_products catalog k`
returns at most `k` items, sorted in descending score order; every
returned item is a catalog record paired with its composite score (no
fabricated products); and, for every score value, the returned items
carrying that score appear in their original catalog order (stability of
the sort): they form an in-order sublist of the scored catalog. -/
theorem claim3_select_top : ∀ (catalog : List Product) (k : ℕ)
    (res scored : List (Product × ℚ)),
    score_catalog catalog = some scored →
    select_top_products catalog k = some res →
    res.length ≤ k
    ∧ res.Pairwise (fun a b => b.2 ≤ a.2)
    ∧ (∀ x ∈ res, x.1 ∈ catalog ∧ compute_product_ad_score x.1 = some x.2)
    ∧ (∀ c : ℚ, List.Sublist (res.filter (fun x => decide (x.2 = c))) scored) := by
  intro catalog k res scored hsc hsel
  unfold select_top_products at hsel
  rw [hsc, Option.map_some'] at hsel
  cases hsel
  obtain ⟨hmap, hscores⟩ := score_catalog_spec hsc
  refine ⟨?_, ?_, ?_, ?_⟩
  · rw [List.length_take]
    exact min_le_left _ _
  · have hsorted : (scored.mergeSort byScoreDesc).Pairwise
        (fun a b => byScoreDesc a b = true) :=
      List.sorted_mergeSort byScoreDesc_trans byScoreDesc_total scored
    have := hsorted.sublist (List.take_sublist k _)
    exact this.imp (fun h => by simpa [byScoreDesc] using h)
  · intro x hx
    have hx' : x ∈ scored :=
      List.mem_mergeSort.mp ((List.take_sublist k _).mem hx)
    exact ⟨hmap ▸ List.mem_map_of_mem Prod.fst hx', hscores x hx'⟩
  · intro c
    set p : Product × ℚ → Bool := fun x => decide (x.2 = c) with hp
    have hcp : (scored.filter p).Pairwise (fun a b => byScoreDesc a b = true) := by
      apply List.pairwise_of_forall_mem_list
      intro a ha b hb
      have ha' := (List.mem_filter.mp ha).2
      have hb' := (List.mem_filter.mp hb).2
      simp only [hp, decide_eq_true_eq] at ha' hb'
      simp [byScoreDesc, ha', hb']
    have hsub : List.Sublist (scored.filter p) (scored.mergeSort byScoreDesc) :=
      List.sublist_mergeSort byScoreDesc_trans byScoreDesc_total hcp
        (List.filter_sublist scored)
    have hsub' : List.Sublist (scored.filter p) ((scored.mergeSort byScoreDesc).filter p) := by
      have := hsub.filter p
      rwa [List.filter_filter, show (fun a => p a && p a) = p from by
        funext a; cases p a <;> rfl] at this
    have hperm : List.Perm ((scored.mergeSort byScoreDesc).filter p) (scored.filter p) :=
      (List.mergeSort_perm scored byScoreDesc).filter p
    have heq : (scored.mergeSort byScoreDesc).filter p = scored.filter p :=
      (hsub'.eq_of_length hperm.length_eq.symm).symm
    have h1 : List.Sublist (((scored.mergeSort byScoreDesc).take k).filter p)
        ((scored.mergeSort byScoreDesc).filter p) :=
      (List.take_sublist k _).filter p
    rw [heq] at h1
    exact h1.trans (List.filter_sublist scored)

/-- C3 (witness): the theorem applied to the one-record catalog. -/
theorem claim3_witness :
    [(emptyProduct, (47/250 : ℚ))].length ≤ 1 ∧ emptyProduct ∈ [emptyProduct] := by
  have hs : score_catalog [emptyProduct] = some [(emptyProduct, (47/250 : ℚ))] := by
    simp [score_catalog, eval_score_empty]
  have hsel : select_top_products [emptyProduct] 1 = some [(emptyProduct, (47/250 : ℚ))] := by
    simp [select_top_products, hs]
  have h := claim3_select_top [emptyProduct] 1 _ _ hs hsel
  exact ⟨h.1, (h.2.2.1 (emptyProduct, (47/250 : ℚ)) (by simp)).1⟩

/-! ## Audience-response simulation (`main.py` 174-262) -/

/-- The pair of probabilities the evaluators return. -/
structure ProbPair where
  click_probability : ℚ
  purchase_probability : ℚ
deriving DecidableEq

/-- A synthetic-consumer record, restricted to the fields
`simulate_ad_for_consumer` reads.  `price_sensitivity` is optional
because the source reads it with `consumer.get("price_sensitivity", 0.7)`. -/
structure Consumer where
  segment : String
  interests : List String := []
  behavior : List String := []
  price_sensitivity : Option ℚ := none
deriving DecidableEq

/-- Python's `s.split()` on space-separated text: split on spaces and
drop empty pieces. -/
def pyWords (s : String) : List String :=
  ((splitOnChar ' ' s.toList).filter (fun l => l ≠ [])).map (fun l => String.mk l)

/-- The additive keyword score built by `evaluate_ad` (`main.py` 174-201)
before clamping: baseline `0.5`, five keyword boosts, a length penalty
and the low-income/discount interaction, written as one sum of
conditional terms (the source accumulates them with `score += v`). -/
def evaluate_ad_score (ad_text : String) (target_audience : String) : ℚ :=
  let text_lower := lowerStr ad_text
  0.5
  + (if pyIn "скид" text_lower then 0.20 else 0)
  + (if pyIn "бесплатн" text_lower then 0.10 else 0)
  + (if pyIn "новин" text_lower then 0.05 else 0)
  + (if pyIn "доставка" text_lower then 0.05 else 0)
  + (if pyIn "хит" text_lower || pyIn "бестселлер" text_lower then 0.05 else 0)
  + (if ad_text.length < 80 then -0.10 else if 600 < ad_text.length then -0.10 else 0)
  + (if pyIn "low_income" (lowerStr target_audience) && pyIn "скид" text_lower then 0.05 else 0)

/-- Embeds `evaluate_ad` (`main.py` 174-208): clamp the keyword score for the
click probability and the score minus `0.1` for the purchase
probability. -/
def evaluate_ad (ad_text : String) (target_audience : String) : ProbPair :=
  { click_probability := clamp01 (evaluate_ad_score ad_text target_audience)
    purchase_probability := clamp01 (evaluate_ad_score ad_text target_audience - 0.1) }

/-- Embeds `simulate_ad_for_consumer` (`main.py` 211-262).  The two
`random.uniform(-0.02, 0.02)` draws are passed in as `j1` (added to the
click score) and `j2` (added to the purchase score). -/
def simulate_ad_for_consumer (ad_text : String) (product : Product)
    (consumer : Consumer) (j1 j2 : ℚ) : ProbPair :=
  let base := evaluate_ad ad_text consumer.segment
  let text_lower := lowerStr ad_text
  let product_text := lowerStr ((product.name.getD "") ++ " "
    ++ (product.description.getD "") ++ " " ++ (product.category.getD ""))
  let interests := lowerStr (String.intercalate " " consumer.interests)
  let behavior := lowerStr (String.intercalate " " consumer.behavior)
  let price_sens := consumer.price_sensitivity.getD 0.7
  let c1 := (pyWords interests).any (fun w => pyIn w text_lower || pyIn w product_text)
  let c2 := pyIn "реагирует на скидки" behavior
            && (pyIn "скид" text_lower || pyIn "акция" text_lower)
  let c3 := pyIn "любит новинки" behavior && pyIn "новин" text_lower
  let c4 := pyIn "доверяет отзывам" behavior
            && (["выбор покупателей", "отзывы", "рейтинг"].any (fun k => pyIn k text_lower))
  let score := base.click_probability
    + (if c1 then 0.05 else 0) + (if c2 then 0.08 * price_sens else 0)
    + (if c3 then 0.05 else 0) + (if c4 then 0.04 else 0) + j1
  let purchase := base.purchase_probability
    + (if c1 then 0.03 else 0) + (if c2 then 0.05 * price_sens else 0)
    + (if c3 then 0.03 else 0) + (if c4 then 0.03 else 0) + j2
  { click_probability := clamp01 score, purchase_probability := clamp01 purchase }

/-- A conditional boost `if c then v else 0` with `v ≥ 0` lies in `[0, v]`. -/
theorem ite_zero_bounds {c : Prop} [Decidable c] {v : ℚ} (h : 0 ≤ v) :
    0 ≤ (if c then v else 0) ∧ (if c then v else 0) ≤ v := by
  by_cases hc : c
  · rw [if_pos hc]; exact ⟨h, le_rfl⟩
  · rw [if_neg hc]; exact ⟨le_rfl, h⟩

/-- The length penalty of `evaluate_ad` lies in `[-0.1, 0]`. -/
theorem len_penalty_bounds (n : ℕ) :
    -(0.10 : ℚ) ≤ (if n < 80 then (-0.10 : ℚ) else if 600 < n then -0.10 else 0)
    ∧ (if n < 80 then (-0.10 : ℚ) else if 600 < n then -0.10 else 0) ≤ 0 := by
  by_cases h1 : n < 80
  · rw [if_pos h1]; norm_num
  · rw [if_neg h1]
    by_cases h2 : 600 < n
    · rw [if_pos h2]; norm_num
    · rw [if_neg h2]; norm_num

/-- Interval arithmetic for the `evaluate_ad` accumulator: baseline `0.5`,
five boosts bounded by `0.2/0.1/0.05/0.05/0.05`, a length term in
`[-0.1, 0]` and a final boost bounded by `0.05` give a sum in `[0.4, 1]`. -/
theorem base_score_bounds (b1 b2 b3 b4 b5 L b6 : ℚ)
    (h1 : 0 ≤ b1 ∧ b1 ≤ 0.20) (h2 : 0 ≤ b2 ∧ b2 ≤ 0.10)
    (h3 : 0 ≤ b3 ∧ b3 ≤ 0.05) (h4 : 0 ≤ b4 ∧ b4 ≤ 0.05)
    (h5 : 0 ≤ b5 ∧ b5 ≤ 0.05) (hL : -(0.10 : ℚ) ≤ L ∧ L ≤ 0)
    (h6 : 0 ≤ b6 ∧ b6 ≤ 0.05) :
    2/5 ≤ 0.5 + b1 + b2 + b3 + b4 + b5 + L + b6
    ∧ 0.5 + b1 + b2 + b3 + b4 + b5 + L + b6 ≤ 1 := by
  obtain ⟨h1a, h1b⟩ := h1
  obtain ⟨h2a, h2b⟩ := h2
  obtain ⟨h3a, h3b⟩ := h3
  obtain ⟨h4a, h4b⟩ := h4
  obtain ⟨h5a, h5b⟩ := h5
  obtain ⟨hLa, hLb⟩ := hL
  obtain ⟨h6a, h6b⟩ := h6
  constructor <;> nlinarith

/-- The keyword score of `evaluate_ad` always lies in `[0.4, 1]`: the
boosts add at most `0.45 + 0.05` and the length penalty subtracts at
most `0.1` from the `0.5` baseline. -/
theorem evaluate_ad_score_mem (ad aud : String) :
    2/5 ≤ evaluate_ad_score ad aud ∧ evaluate_ad_score ad aud ≤ 1 := by
  unfold evaluate_ad_score
  exact base_score_bounds _ _ _ _ _ _ _
    (ite_zero_bounds (by norm_num)) (ite_zero_bounds (by norm_num))
    (ite_zero_bounds (by norm_num)) (ite_zero_bounds (by norm_num))
    (ite_zero_bounds (by norm_num)) (len_penalty_bounds ad.length)
    (ite_zero_bounds (by norm_num))

/-- The function `evaluate_ad` returns exactly the score and the score minus `0.1`
(the clamps are the identity there, since the score is in `[0.4, 1]`). -/
theorem evaluate_ad_vals (ad aud : String) :
    (evaluate_ad ad aud).click_probability = evaluate_ad_score ad aud
    ∧ (evaluate_ad ad aud).purchase_probability = evaluate_ad_score ad aud - 1/10 := by
  obtain ⟨h1, h2⟩ := evaluate_ad_score_mem ad aud
  unfold evaluate_ad
  constructor
  · exact clamp01_eq_self (by linarith) h2
  · show clamp01 (evaluate_ad_score ad aud - 0.1) = _
    rw [show (0.1 : ℚ) = 1/10 from by norm_num]
    exact clamp01_eq_self (by linarith) (by linarith)

/-- Comparison of the raw purchase and click accumulators of
`simulate_ad_for_consumer`: each purchase boost is at most the matching
click boost (they share the same condition), and the two independent
jitters differ by at most `1/25`, which the `0.1` base gap absorbs. -/
theorem sum_boost_le {s ps j1 j2 : ℚ} (c1 c2 c3 c4 : Bool)
    (hj : j2 - j1 ≤ 1/25) (hps : 0 ≤ ps) :
    (s - 1/10) + (if c1 then (0.03 : ℚ) else 0) + (if c2 then 0.05 * ps else 0)
      + (if c3 then (0.03 : ℚ) else 0) + (if c4 then (0.03 : ℚ) else 0) + j2
    ≤ s + (if c1 then (0.05 : ℚ) else 0) + (if c2 then 0.08 * ps else 0)
      + (if c3 then (0.05 : ℚ) else 0) + (if c4 then (0.04 : ℚ) else 0) + j1 := by
  have g1 : (if c1 then (0.03 : ℚ) else 0) ≤ (if c1 then (0.05 : ℚ) else 0) := by
    split_ifs <;> norm_num
  have g2 : (if c2 then 0.05 * ps else 0) ≤ (if c2 then 0.08 * ps else 0) := by
    split_ifs <;> nlinarith
  have g3 : (if c3 then (0.03 : ℚ) else 0) ≤ (if c3 then (0.05 : ℚ) else 0) := by
    split_ifs <;> norm_num
  have g4 : (if c4 then (0.03 : ℚ) else 0) ≤ (if c4 then (0.04 : ℚ) else 0) := by
    split_ifs <;> norm_num
  linarith

/-- C4: for every ad text, product and consumer profile (with the
documented `price_sensitivity` range `0..1`) and any jitter draws in
`[-0.02, 0.02]`, the per-consumer evaluation returns probabilities in
`[0, 1]` with purchase probability never exceeding click probability. -/
theorem claim4_simulate_bounds : ∀ (ad : String) (product : Product)
    (consumer : Consumer) (j1 j2 : ℚ),
    -(1/50) ≤ j1 → j1 ≤ 1/50 → -(1/50) ≤ j2 → j2 ≤ 1/50 →
    0 ≤ consumer.price_sensitivity.getD 0.7 →
    consumer.price_sensitivity.getD 0.7 ≤ 1 →
    0 ≤ (simulate_ad_for_consumer ad product consumer j1 j2).click_probability
    ∧ (simulate_ad_for_consumer ad product consumer j1 j2).click_probability ≤ 1
    ∧ 0 ≤ (simulate_ad_for_consumer ad product consumer j1 j2).purchase_probability
    ∧ (simulate_ad_for_consumer ad product consumer j1 j2).purchase_probability ≤ 1
    ∧ (simulate_ad_for_consumer ad product consumer j1 j2).purchase_probability
        ≤ (simulate_ad_for_consumer ad product consumer j1 j2).click_probability := by
  intro ad product consumer j1 j2 hj1 hj1' hj2 hj2' hps hps'
  obtain ⟨hc, hp⟩ := evaluate_ad_vals ad consumer.segment
  unfold simulate_ad_for_consumer
  dsimp only
  refine ⟨clamp01_nonneg _, clamp01_le_one _, clamp01_nonneg _, clamp01_le_one _, ?_⟩
  rw [hc, hp]
  exact clamp01_mono (sum_boost_le _ _ _ _ (by linarith) hps)

/-- C4 (witness): the theorem applied at a concrete consumer, product,
ad text, and zero jitter. -/
theorem claim4_witness :
    0 ≤ (simulate_ad_for_consumer "" emptyProduct ⟨"seg", [], [], none⟩ 0 0).click_probability
    ∧ (simulate_ad_for_consumer "" emptyProduct ⟨"seg", [], [], none⟩ 0 0).click_probability ≤ 1
    ∧ 0 ≤ (simulate_ad_for_consumer "" emptyProduct ⟨"seg", [], [], none⟩ 0 0).purchase_probability
    ∧ (simulate_ad_for_consumer "" emptyProduct ⟨"seg", [], [], none⟩ 0 0).purchase_probability ≤ 1
    ∧ (simulate_ad_for_consumer "" emptyProduct ⟨"seg", [], [], none⟩ 0 0).purchase_probability
        ≤ (simulate_ad_for_consumer "" emptyProduct ⟨"seg", [], [], none⟩ 0 0).click_probability :=
  claim4_simulate_bounds "" emptyProduct ⟨"seg", [], [], none⟩ 0 0
    (by norm_num) (by norm_num) (by norm_num) (by norm_num)
    (by simp only [Option.getD_none]; norm_num)
    (by simp only [Option.getD_none]; norm_num)

/-! ## Claim C7 — `evaluate_ad_on_audience` (`main.py` 265-283) -/

/-- Python's `/` on a sum and a list length: raises `ZeroDivisionError`
(modelled by `none`) when the length is zero. -/
def pydiv (a : ℚ) (n : ℕ) : Option ℚ :=
  if n = 0 then none else some (a / n)

/-- Embeds `evaluate_ad_on_audience`: run `simulate_ad_for_consumer` over every
consumer and average the click/purchase probabilities.  `jit i` supplies
the two `random.uniform(-0.02, 0.02)` draws of the `i`-th loop
iteration. -/
def evaluate_ad_on_audience (ad_text : String) (product : Product)
    (consumers : List Consumer) (jit : ℕ → ℚ × ℚ) : Option ProbPair :=
  let results := consumers.enum.map (fun ic =>
    simulate_ad_for_consumer ad_text product ic.2 (jit ic.1).1 (jit ic.1).2)
  let clicks := results.map ProbPair.click_probability
  let purchases := results.map ProbPair.purchase_probability
  (pydiv clicks.sum clicks.length).bind (fun c =>
    (pydiv purchases.sum purchases.length).map (fun p =>
      { click_probability := c, purchase_probability := p }))

/-- C7: on an empty consumer list `evaluate_ad_on_audience` errors
(`ZeroDivisionError`, the fatal empty-audience condition) rather than
returning `0` or `NaN`; on a non-empty list it returns exactly the
arithmetic means of the per-consumer click and purchase probabilities
over the full list. -/
theorem claim7_audience_mean : ∀ (ad : String) (product : Product)
    (consumers : List Consumer) (jit : ℕ → ℚ × ℚ),
    (consumers = [] → evaluate_ad_on_audience ad product consumers jit = none)
    ∧ (consumers ≠ [] →
        evaluate_ad_on_audience ad product consumers jit = some
          { click_probability := (consumers.enum.map (fun ic =>
              (simulate_ad_for_consumer ad product ic.2 (jit ic.1).1
                (jit ic.1).2).click_probability)).sum / consumers.length
            purchase_probability := (consumers.enum.map (fun ic =>
              (simulate_ad_for_consumer ad product ic.2 (jit ic.1).1
                (jit ic.1).2).purchase_probability)).sum / consumers.length }) := by
  intro ad product consumers jit
  constructor
  · intro h
    subst h
    rfl
  · intro h
    have hlen : consumers.length ≠ 0 := fun hh => h (List.length_eq_zero.mp hh)
    unfold evaluate_ad_on_audience pydiv
    simp only [List.length_map, List.enum_length, List.map_map]
    rw [if_neg hlen, Option.some_bind, if_neg hlen, Option.map_some']
    rfl

/-- C7 (witness): the theorem applied at concrete inputs — the empty
audience errors, a one-consumer audience returns that consumer's
probabilities (the mean over a singleton). -/
theorem claim7_witness :
    evaluate_ad_on_audience "" emptyProduct [] (fun _ => (0, 0)) = none
    ∧ evaluate_ad_on_audience "" emptyProduct [⟨"seg", [], [], none⟩] (fun _ => (0, 0)) =
        some { click_probability :=
                 (simulate_ad_for_consumer "" emptyProduct ⟨"seg", [], [], none⟩ 0 0).click_probability
               purchase_probability :=
                 (simulate_ad_for_consumer "" emptyProduct ⟨"seg", [], [], none⟩ 0 0).purchase_probability } := by
  constructor
  · exact (claim7_audience_mean "" emptyProduct [] (fun _ => (0, 0))).1 rfl
  · rw [(claim7_audience_mean "" emptyProduct [⟨"seg", [], [], none⟩] (fun _ => (0, 0))).2 (by simp)]
    simp [List.enum]

/-! ## Creative-generation clients (`promt.py`) -/

/-- A JSON value, as produced by `response.json()` / `json.loads`. -/
inductive JVal where
  | jnull
  | jbool (b : Bool)
  | jnum (q : ℚ)
  | jstr (s : String)
  | jarr (xs : List JVal)
  | jobj (fields : List (String × JVal))

/-- The five fields of the `AdVariant` dataclass.  Values parsed from a
remote JSON response are stored untouched (Python dataclasses do not
enforce the `str` annotations at runtime), so the fields hold `JVal`;
both template clients only ever store strings (`jstr`). -/
structure AdVariant where
  channel : JVal
  headline : JVal
  text : JVal
  cta : JVal
  notes : JVal

/-- Python's `str()` as it appears in the mock template
`f"{base.headline} (Вариант {i + 1})"`.  The mock only ever applies it
to strings; `None`/booleans/integral numbers follow Python, and the
container cases (never produced by the code modelled here) are left
empty rather than spelling out Python's `repr`. -/
def JVal.pyStr : JVal → String
  | .jstr s => s
  | .jnull => "None"
  | .jbool true => "True"
  | .jbool false => "False"
  | .jnum q => toString q
  | .jarr _ => ""
  | .jobj _ => ""

/-- The slice of the request payload the two clients read: the product
summary (`name`, `features`), the target `channel`, and `n_variants`
(read with `payload.get("n_variants", 1)`). -/
structure PayloadProduct where
  name : Option String := none
  features : Option (List String) := none

/-- A generation request. -/
structure Payload where
  product : PayloadProduct := {}
  channel : String
  n_variants : Option ℕ := none

/-- Embeds `MockLLMClient.generate_variants` (`promt.py` 218-260): build the
per-channel template (channels other than `"telegram"`/`"vk"` fall into
the `else` branch, which is hard-wired to `"yandex_ads"`), then return
`n = payload.get("n_variants", 1)` copies whose headlines carry a
`(Вариант i+1)` suffix.  Deterministic and offline: a pure function of
the payload. -/
def MockLLMClient_generate_variants (payload : Payload) : List AdVariant :=
  let product := payload.product
  let channel := payload.channel
  let name := product.name.getD "Товар"
  let features := product.features.getD []
  let joined := String.intercalate ", " (features.filter (fun f => f ≠ ""))
  let features_text := if joined = "" then "отличные характеристики" else joined
  let base : AdVariant :=
    if channel = "telegram" then
      { channel := .jstr "telegram"
        headline := .jstr ("🔥 " ++ name ++ " — забери, пока есть!")
        text := .jstr ("Наш " ++ name ++ " с " ++ features_text
          ++ ". Это новинка, которую все ждут. Успей, пока цена ещё держится! 🚀")
        cta := .jstr "Успеть взять сейчас →"
        notes := .jstr "Mock: кратко, эмоции, FOMO." }
    else if channel = "vk" then
      { channel := .jstr "vk"
        headline := .jstr (name ++ ": Техника, которая радует каждый день | Отзывы 4.9/5")
        text := .jstr (name ++ " — выбор тех, кто ценит комфорт и качество. Особенности: "
          ++ features_text
          ++ ". Посмотрите, что говорят другие покупатели! Многие уже оценили этот вариант.")
        cta := .jstr "Заказать онлайн и получить скидку"
        notes := .jstr "Mock: длиннее текст, соцдоказательство." }
    else
      { channel := .jstr "yandex_ads"
        headline := .jstr ("Выгодная Цена на " ++ name ++ " — Спешите!")
        text := .jstr (name ++ " с " ++ features_text
          ++ ". Быстрая доставка по РФ. Гарантия 1 год. Заказать онлайн.")
        cta := .jstr "Купить онлайн"
        notes := .jstr "Mock: сухо, по делу, под поиск." }
  let n := payload.n_variants.getD 1
  (List.range n).map (fun i =>
    { channel := base.channel
      headline := .jstr (base.headline.pyStr ++ " (Вариант " ++ toString (i + 1) ++ ")")
      text := base.text
      cta := base.cta
      notes := base.notes })

/-- C5: the mock client returns exactly `payload.get("n_variants", 1)`
`AdVariant`s — in particular exactly 3 when `n_variants = 3`.  It is a
pure function of the payload (the source uses no randomness, I/O, or
network), so determinism is inherent to the embedding. -/
theorem claim5_mock_count : ∀ payload : Payload,
    (MockLLMClient_generate_variants payload).length = payload.n_variants.getD 1 := by
  intro payload
  unfold MockLLMClient_generate_variants
  simp

/-- Mapping a range through a constant-valued function yields a
`replicate`. -/
theorem map_range_const {α : Type} (n : ℕ) (f : ℕ → α) (c : α)
    (h : ∀ i, f i = c) : (List.range n).map f = List.replicate n c := by
  apply List.eq_replicate_iff.mpr
  constructor
  · simp
  · intro b hb
    obtain ⟨i, _, hi⟩ := List.mem_map.mp hb
    rw [← hi, h]

/-- C10: the mock client echoes the requested channel only for
`"telegram"` and `"vk"`; every other channel string (any unknown
channel) produces variants that all carry channel `"yandex_ads"`. -/
theorem claim10_mock_channel : ∀ payload : Payload,
    ((payload.channel ≠ "telegram" → payload.channel ≠ "vk" →
       (MockLLMClient_generate_variants payload).map AdVariant.channel
         = List.replicate (payload.n_variants.getD 1) (JVal.jstr "yandex_ads"))
     ∧ (payload.channel = "telegram" →
       (MockLLMClient_generate_variants payload).map AdVariant.channel
         = List.replicate (payload.n_variants.getD 1) (JVal.jstr "telegram"))
     ∧ (payload.channel = "vk" →
       (MockLLMClient_generate_variants payload).map AdVariant.channel
         = List.replicate (payload.n_variants.getD 1) (JVal.jstr "vk"))) := by
  intro payload
  refine ⟨?_, ?_, ?_⟩
  · intro h1 h2
    unfold MockLLMClient_generate_variants
    dsimp only
    rw [if_neg h1, if_neg h2, List.map_map]
    exact map_range_const _ _ _ (fun i => rfl)
  · intro h
    unfold MockLLMClient_generate_variants
    dsimp only
    rw [if_pos h, List.map_map]
    exact map_range_const _ _ _ (fun i => rfl)
  · intro h
    unfold MockLLMClient_generate_variants
    dsimp only
    have h' : payload.channel ≠ "telegram" := by rw [h]; decide
    rw [if_neg h', if_pos h, List.map_map]
    exact map_range_const _ _ _ (fun i => rfl)

/-- C10 (witness): the theorem applied at three concrete payloads with
`n_variants = 3` and channels `"ozon"`, `"telegram"`, `"vk"`. -/
theorem claim10_witness :
    (MockLLMClient_generate_variants { channel := "ozon", n_variants := some 3 }).map
        AdVariant.channel = List.replicate 3 (JVal.jstr "yandex_ads")
    ∧ (MockLLMClient_generate_variants { channel := "telegram", n_variants := some 3 }).map
        AdVariant.channel = List.replicate 3 (JVal.jstr "telegram")
    ∧ (MockLLMClient_generate_variants { channel := "vk", n_variants := some 3 }).map
        AdVariant.channel = List.replicate 3 (JVal.jstr "vk") :=
  ⟨(claim10_mock_channel { channel := "ozon", n_variants := some 3 }).1
      (by decide) (by decide),
   (claim10_mock_channel { channel := "telegram", n_variants := some 3 }).2.1 rfl,
   (claim10_mock_channel { channel := "vk", n_variants := some 3 }).2.2 rfl⟩

/-! ## Claim C6 — `MistralClient.generate_variants` (`promt.py` 146-205)

The code bug: the except-handler at lines 202-205 prints
`raw_content[:200]`.  When `raw_response["choices"][0]["message"]["content"]`
raised before `raw_content` was bound (e.g. the body is valid JSON but
lacks a `choices` key), referencing `raw_content` inside the handler
itself raises `UnboundLocalError`, which escapes to the caller — the
opposite of the documented "on a parse error, return the mock". -/

/-- First-match lookup in the field list of a JSON object
(Python dicts have unique keys). -/
def lookupField (k : String) : List (String × JVal) → Option JVal
  | [] => none
  | (k', v) :: t => if k' = k then some v else lookupField k t

/-- Python subscript `v[k]` for a string key: succeeds only on a dict
containing the key; everything else raises (`TypeError`/`KeyError`). -/
def jGet (v : JVal) (k : String) : Option JVal :=
  match v with
  | .jobj fields => lookupField k fields
  | _ => none

/-- Python subscript `v[0]`: first element of a list, first character of
a non-empty string; everything else raises
(`KeyError`/`IndexError`/`TypeError`). -/
def jIndexZero : JVal → Option JVal
  | .jarr (x :: _) => some x
  | .jstr s =>
    match s.toList with
    | [] => none
    | c :: _ => some (.jstr (String.mk [c]))
  | _ => none

/-- The chain `raw_response["choices"][0]["message"]["content"]` — `none` when any
subscript in the chain raises, in which case `raw_content` was never
bound. -/
def extractRawContent (body : JVal) : Option JVal :=
  (jGet body "choices").bind (fun cs =>
    (jIndexZero cs).bind (fun c0 =>
      (jGet c0 "message").bind (fun msg => jGet msg "content")))

/-- Python iteration (`for v_data in variants_data`): lists yield their
elements, strings their characters, dicts their keys; numbers, booleans
and `None` raise `TypeError`. -/
def jIterate : JVal → Option (List JVal)
  | .jarr xs => some xs
  | .jstr s => some (s.toList.map (fun c => JVal.jstr (String.mk [c])))
  | .jobj fields => some (fields.map (fun kv => JVal.jstr kv.1))
  | _ => none

/-- One loop iteration
`AdVariant(channel=v_data.get("channel", channel), ...)`;
fails (`AttributeError`) when `v_data` is not a dict. -/
def variantOfJVal (channel : String) : JVal → Option AdVariant
  | .jobj fields =>
    some { channel := (lookupField "channel" fields).getD (.jstr channel)
           headline := (lookupField "headline" fields).getD (.jstr "Заголовок от Mistral")
           text := (lookupField "text" fields).getD (.jstr "Текст от Mistral")
           cta := (lookupField "cta" fields).getD (.jstr "CTA")
           notes := (lookupField "notes" fields).getD (.jstr "Сгенерировано Mistral") }
  | _ => none

/-- Result of `MistralClient._call_api`: either the raised
`ConnectionError` (any network/HTTP failure) or the decoded JSON body
`response.json()`. -/
inductive ApiOutcome where
  | connError
  | ok (body : JVal)

/-- An exception escaping `MistralClient.generate_variants` to its
caller. -/
inductive PyError where
  | unboundLocalError
  | typeError
deriving DecidableEq

/-- Embeds `MistralClient.generate_variants` (`promt.py` 146-205), parametrised
by the API outcome and by `loads`, an abstract model of `json.loads` on
strings (`none` = `ValueError`).  A `ConnectionError` and every failure
inside the parsing `try` fall back to the mock client — except that the
handler's own `raw_content[:200]` raises `UnboundLocalError` when the
subscript chain failed before binding `raw_content`, and `TypeError`
when `raw_content` is bound to an unsliceable value (not a string or
list).  A parsed-but-short `variants` array is padded with the mock
output and the result truncated to `n_variants`. -/
def MistralClient_generate_variants (loads : String → Option JVal)
    (payload : Payload) (api : ApiOutcome) : Except PyError (List AdVariant) :=
  let n := payload.n_variants.getD 1
  match api with
  | .connError => .ok (MockLLMClient_generate_variants payload)
  | .ok body =>
    match extractRawContent body with
    | none => .error .unboundLocalError
    | some rawContent =>
      match rawContent with
      | .jstr s =>
        match loads s with
        | none => .ok (MockLLMClient_generate_variants payload)
        | some parsed =>
          match parsed with
          | .jobj fields =>
            let variants_data := (lookupField "variants" fields).getD (.jarr [])
            match jIterate variants_data with
            | none => .ok (MockLLMClient_generate_variants payload)
            | some elems =>
              match elems.mapM (variantOfJVal payload.channel) with
              | none => .ok (MockLLMClient_generate_variants payload)
              | some variants =>
                let padded :=
                  if variants.length < n then
                    variants ++ MockLLMClient_generate_variants payload
                  else variants
                .ok (padded.take n)
          | _ => .ok (MockLLMClient_generate_variants payload)
      | .jarr _ => .ok (MockLLMClient_generate_variants payload)
      | _ => .error .typeError

/-- C6 (code bug, failing input): an HTTP-success response whose JSON
body is `{}` (no `choices` key) makes `generate_variants` raise
`UnboundLocalError` from its own except-handler instead of falling back
to the mock client — for every payload and every `json.loads`
behaviour. -/
theorem claim6_missing_choices_raises :
    ∀ (loads : String → Option JVal) (payload : Payload),
    MistralClient_generate_variants loads payload (.ok (.jobj []))
      = .error .unboundLocalError := by
  intro loads payload
  rfl

/-! ## Claim C8 — `pick_best_per_channel` (`main.py` 409-427) -/

/-- One scored ad as consumed by `pick_best_per_channel`: the fields the
function reads (`item["product"]["name"]`, `item["channel"]`,
`item["evaluation"]["click_probability"]`) plus the purchase probability
carried along as payload. -/
structure ScoredAd where
  productName : String
  channel : String
  click_probability : ℚ
  purchase_probability : ℚ
deriving DecidableEq

/-- The dict key `(item["product"]["name"], item["channel"])`. -/
def adKey (a : ScoredAd) : String × String := (a.productName, a.channel)

/-- Python's `best.get(key)` on the insertion-ordered dict, modelled as an
association list. -/
def lookupKey (k : String × String) :
    List ((String × String) × ScoredAd) → Option ScoredAd
  | [] => none
  | kv :: t => if kv.1 = k then some kv.2 else lookupKey k t

/-- The assignment `best[key] = item`: replace in place when the key exists, append
otherwise (Python dicts preserve insertion order). -/
def dictSet (k : String × String) (v : ScoredAd) :
    List ((String × String) × ScoredAd) → List ((String × String) × ScoredAd)
  | [] => [(k, v)]
  | kv :: t => if kv.1 = k then (k, v) :: t else kv :: dictSet k v t

/-- One iteration of the loop in `pick_best_per_channel`: keep the
incumbent unless the new item's click probability is strictly larger. -/
def bestStep (best : List ((String × String) × ScoredAd)) (item : ScoredAd) :
    List ((String × String) × ScoredAd) :=
  match lookupKey (adKey item) best with
  | none => dictSet (adKey item) item best
  | some current =>
    if current.click_probability < item.click_probability then
      dictSet (adKey item) item best
    else best

/-- Embeds `pick_best_per_channel` (`main.py` 409-427). -/
def pick_best_per_channel (scored_ads : List ScoredAd) :
    List ((String × String) × ScoredAd) :=
  scored_ads.foldl bestStep []

theorem lookupKey_some_mem {k : String × String} {v : ScoredAd} :
    ∀ {best : List ((String × String) × ScoredAd)},
    lookupKey k best = some v → (k, v) ∈ best := by
  intro best
  induction best with
  | nil => intro h; cases h
  | cons kv0 t ih =>
    intro h
    unfold lookupKey at h
    split_ifs at h with he
    · rw [Option.some_inj] at h
      have : kv0 = (k, v) := by
        obtain ⟨k', v'⟩ := kv0
        simp only at he h
        rw [he, h]
      rw [← this]
      exact List.mem_cons_self _ _
    · exact List.mem_cons_of_mem _ (ih h)

theorem lookupKey_none {k : String × String} :
    ∀ {best : List ((String × String) × ScoredAd)},
    lookupKey k best = none → ∀ kv ∈ best, kv.1 ≠ k := by
  intro best
  induction best with
  | nil => intro _ kv hkv; cases hkv
  | cons kv0 t ih =>
    intro h kv hkv
    unfold lookupKey at h
    split_ifs at h with he
    · rcases List.mem_cons.mp hkv with rfl | hkv
      · exact he
      · exact ih h kv hkv

theorem dictSet_append {k : String × String} {v : ScoredAd} :
    ∀ {best : List ((String × String) × ScoredAd)},
    (∀ kv ∈ best, kv.1 ≠ k) → dictSet k v best = best ++ [(k, v)] := by
  intro best
  induction best with
  | nil => intro _; rfl
  | cons kv0 t ih =>
    intro h
    unfold dictSet
    rw [if_neg (h kv0 (List.mem_cons_self _ _)),
      ih (fun kv hkv => h kv (List.mem_cons_of_mem _ hkv))]
    rfl

theorem mem_dictSet_weak {k : String × String} {v : ScoredAd}
    {kv : (String × String) × ScoredAd} :
    ∀ {best : List ((String × String) × ScoredAd)},
    kv ∈ dictSet k v best → kv = (k, v) ∨ kv ∈ best := by
  intro best
  induction best with
  | nil =>
    intro h
    exact Or.inl (List.mem_singleton.mp h)
  | cons kv0 t ih =>
    intro h
    unfold dictSet at h
    split_ifs at h with he
    · rcases List.mem_cons.mp h with rfl | h
      · exact Or.inl rfl
      · exact Or.inr (List.mem_cons_of_mem _ h)
    · rcases List.mem_cons.mp h with rfl | h
      · exact Or.inr (List.mem_cons_self _ _)
      · rcases ih h with h | h
        · exact Or.inl h
        · exact Or.inr (List.mem_cons_of_mem _ h)

theorem mem_dictSet {k : String × String} {v : ScoredAd}
    {kv : (String × String) × ScoredAd} :
    ∀ {best : List ((String × String) × ScoredAd)},
    best.Pairwise (fun a b => a.1 ≠ b.1) →
    kv ∈ dictSet k v best → kv = (k, v) ∨ (kv ∈ best ∧ kv.1 ≠ k) := by
  intro best
  induction best with
  | nil =>
    intro _ h
    exact Or.inl (List.mem_singleton.mp h)
  | cons kv0 t ih =>
    intro hpw h
    have hpw' := List.pairwise_cons.mp hpw
    unfold dictSet at h
    split_ifs at h with he
    · rcases List.mem_cons.mp h with rfl | h
      · exact Or.inl rfl
      · refine Or.inr ⟨List.mem_cons_of_mem _ h, ?_⟩
        rw [← he]
        exact fun hh => (hpw'.1 kv h) hh.symm
    · rcases List.mem_cons.mp h with rfl | h
      · exact Or.inr ⟨List.mem_cons_self _ _, he⟩
      · rcases ih hpw'.2 h with h | ⟨h1, h2⟩
        · exact Or.inl h
        · exact Or.inr ⟨List.mem_cons_of_mem _ h1, h2⟩

theorem mem_dictSet_of_ne {k : String × String} {v : ScoredAd}
    {kv : (String × String) × ScoredAd} :
    ∀ {best : List ((String × String) × ScoredAd)},
    kv ∈ best → kv.1 ≠ k → kv ∈ dictSet k v best := by
  intro best
  induction best with
  | nil => intro h; cases h
  | cons kv0 t ih =>
    intro h hne
    unfold dictSet
    split_ifs with he
    · rcases List.mem_cons.mp h with rfl | h
      · exact absurd he hne
      · exact List.mem_cons_of_mem _ h
    · rcases List.mem_cons.mp h with rfl | h
      · exact List.mem_cons_self _ _
      · exact List.mem_cons_of_mem _ (ih h hne)

theorem self_mem_dictSet (k : String × String) (v : ScoredAd) :
    ∀ (best : List ((String × String) × ScoredAd)), (k, v) ∈ dictSet k v best := by
  intro best
  induction best with
  | nil => exact List.mem_singleton.mpr rfl
  | cons kv0 t ih =>
    unfold dictSet
    split_ifs with he
    · exact List.mem_cons_self _ _
    · exact List.mem_cons_of_mem _ ih

theorem pairwise_dictSet {k : String × String} {v : ScoredAd} :
    ∀ {best : List ((String × String) × ScoredAd)},
    best.Pairwise (fun a b => a.1 ≠ b.1) →
    (dictSet k v best).Pairwise (fun a b => a.1 ≠ b.1) := by
  intro best
  induction best with
  | nil => intro _; exact List.pairwise_singleton _ _
  | cons kv0 t ih =>
    intro hpw
    have hpw' := List.pairwise_cons.mp hpw
    unfold dictSet
    split_ifs with he
    · refine List.pairwise_cons.mpr ⟨?_, hpw'.2⟩
      intro x hx
      show (k, v).1 ≠ x.1
      rw [show ((k, v).1 : String × String) = k from rfl, ← he]
      exact hpw'.1 x hx
    · refine List.pairwise_cons.mpr ⟨?_, ih hpw'.2⟩
      intro x hx
      rcases mem_dictSet_weak hx with rfl | hx
      · exact he
      · exact hpw'.1 x hx

theorem key_unique :
    ∀ {best : List ((String × String) × ScoredAd)},
    best.Pairwise (fun a b => a.1 ≠ b.1) →
    ∀ {k : String × String} {x y : ScoredAd},
    (k, x) ∈ best → (k, y) ∈ best → x = y := by
  intro best
  induction best with
  | nil => intro _ k x y h; cases h
  | cons kv0 t ih =>
    intro hpw k x y hx hy
    have hpw' := List.pairwise_cons.mp hpw
    rcases List.mem_cons.mp hx with hx0 | hx
    · rcases List.mem_cons.mp hy with hy0 | hy
      · rw [← hx0] at hy0
        exact congrArg Prod.snd hy0.symm
      · rw [← hx0] at hpw'
        exact absurd rfl (hpw'.1 (k, y) hy)
    · rcases List.mem_cons.mp hy with hy0 | hy
      · rw [← hy0] at hpw'
        exact absurd rfl (hpw'.1 (k, x) hx)
      · exact ih hpw'.2 hx hy

/-- Loop invariant of `pick_best_per_channel` after processing the ads in
`pre`: keys are pairwise distinct; every retained entry is keyed by its
own ad and splits the processed prefix so that earlier same-key ads have
strictly smaller click probability (first-seen tie-break) and later
same-key ads have no larger click probability (maximality); and every
processed ad's key is present in the dict. -/
def BestInv (pre : List ScoredAd)
    (best : List ((String × String) × ScoredAd)) : Prop :=
  best.Pairwise (fun a b => a.1 ≠ b.1)
  ∧ (∀ kv ∈ best, adKey kv.2 = kv.1 ∧
      ∃ l1 l2, pre = l1 ++ kv.2 :: l2
        ∧ (∀ b ∈ l1, adKey b = kv.1 → b.click_probability < kv.2.click_probability)
        ∧ (∀ b ∈ l2, adKey b = kv.1 → b.click_probability ≤ kv.2.click_probability))
  ∧ (∀ b ∈ pre, ∃ kv ∈ best, kv.1 = adKey b)

theorem bestStep_inv {pre : List ScoredAd}
    {best : List ((String × String) × ScoredAd)}
    (h : BestInv pre best) (a : ScoredAd) :
    BestInv (pre ++ [a]) (bestStep best a) := by
  obtain ⟨hpw, hent, hcov⟩ := h
  unfold bestStep
  cases hl : lookupKey (adKey a) best with
  | none =>
    have hne : ∀ kv ∈ best, kv.1 ≠ adKey a := lookupKey_none hl
    rw [dictSet_append hne]
    refine ⟨?_, ?_, ?_⟩
    · rw [List.pairwise_append]
      refine ⟨hpw, List.pairwise_singleton _ _, ?_⟩
      intro x hx y hy
      rw [List.mem_singleton.mp hy]
      exact hne x hx
    · intro kv hkv
      rcases List.mem_append.mp hkv with hkv | hkv
      · obtain ⟨hkey, l1, l2, hsplit, hl1, hl2⟩ := hent kv hkv
        refine ⟨hkey, l1, l2 ++ [a], by rw [hsplit]; simp, hl1, ?_⟩
        intro b hb hkeyb
        rcases List.mem_append.mp hb with hb | hb
        · exact hl2 b hb hkeyb
        · rw [List.mem_singleton.mp hb] at hkeyb
          exact absurd hkeyb.symm (hne kv hkv)
      · rw [List.mem_singleton.mp hkv]
        refine ⟨rfl, pre, [], by simp, ?_, by simp⟩
        intro b hb hkeyb
        obtain ⟨kv', hkv', hkey'⟩ := hcov b hb
        exact absurd (hkey'.trans hkeyb) (hne kv' hkv')
    · intro b hb
      rcases List.mem_append.mp hb with hb | hb
      · obtain ⟨kv', hkv', hkey'⟩ := hcov b hb
        exact ⟨kv', List.mem_append_left _ hkv', hkey'⟩
      · rw [List.mem_singleton.mp hb]
        exact ⟨(adKey a, a), List.mem_append_right _ (List.mem_singleton.mpr rfl), rfl⟩
  | some current =>
    have hcur : (adKey a, current) ∈ best := lookupKey_some_mem hl
    dsimp only
    split_ifs with hlt
    · refine ⟨pairwise_dictSet hpw, ?_, ?_⟩
      · intro kv hkv
        rcases mem_dictSet hpw hkv with rfl | ⟨hkv', hne⟩
        · refine ⟨rfl, pre, [], by simp, ?_, by simp⟩
          intro b hb hkeyb
          obtain ⟨hkeyc, m1, m2, hsplitc, hm1, hm2⟩ := hent (adKey a, current) hcur
          rw [hsplitc] at hb
          rcases List.mem_append.mp hb with hb | hb
          · exact lt_trans (hm1 b hb hkeyb) hlt
          · rcases List.mem_cons.mp hb with rfl | hb
            · exact hlt
            · exact lt_of_le_of_lt (hm2 b hb hkeyb) hlt
        · obtain ⟨hkey, l1, l2, hsplit, hl1, hl2⟩ := hent kv hkv'
          refine ⟨hkey, l1, l2 ++ [a], by rw [hsplit]; simp, hl1, ?_⟩
          intro b hb hkeyb
          rcases List.mem_append.mp hb with hb | hb
          · exact hl2 b hb hkeyb
          · rw [List.mem_singleton.mp hb] at hkeyb
            exact absurd hkeyb.symm hne
      · intro b hb
        rcases List.mem_append.mp hb with hb | hb
        · obtain ⟨kv', hkv', hkey'⟩ := hcov b hb
          by_cases hk : kv'.1 = adKey a
          · refine ⟨(adKey a, a), self_mem_dictSet _ _ _, ?_⟩
            rw [← hk]
            exact hkey'
          · exact ⟨kv', mem_dictSet_of_ne hkv' hk, hkey'⟩
        · rw [List.mem_singleton.mp hb]
          exact ⟨(adKey a, a), self_mem_dictSet _ _ _, rfl⟩
    · refine ⟨hpw, ?_, ?_⟩
      · intro kv hkv
        obtain ⟨hkey, l1, l2, hsplit, hl1, hl2⟩ := hent kv hkv
        refine ⟨hkey, l1, l2 ++ [a], by rw [hsplit]; simp, hl1, ?_⟩
        intro b hb hkeyb
        rcases List.mem_append.mp hb with hb | hb
        · exact hl2 b hb hkeyb
        · rw [List.mem_singleton.mp hb] at hkeyb ⊢
          have hkv2 : (adKey a, kv.2) ∈ best := by
            have he : kv = (adKey a, kv.2) := by
              rw [hkeyb]
            rw [← he]
            exact hkv
          have hcu := key_unique hpw hkv2 hcur
          rw [hcu]
          exact not_lt.mp hlt
      · intro b hb
        rcases List.mem_append.mp hb with hb | hb
        · exact hcov b hb
        · rw [List.mem_singleton.mp hb]
          exact ⟨(adKey a, current), hcur, rfl⟩

theorem foldl_bestStep_inv : ∀ (ads pre : List ScoredAd)
    (best : List ((String × String) × ScoredAd)), BestInv pre best →
    BestInv (pre ++ ads) (ads.foldl bestStep best) := by
  intro ads
  induction ads with
  | nil =>
    intro pre best h
    simpa using h
  | cons a t ih =>
    intro pre best h
    have h2 := ih (pre ++ [a]) (bestStep best a) (bestStep_inv h a)
    rw [List.append_assoc] at h2
    simpa using h2

/-- C8: `pick_best_per_channel` keeps at most one entry per
(product-name, channel) key; each kept entry is an element of the input
keyed by itself whose click probability is maximal among the input
entries with the same key; and the kept entry is the first-seen among
ties: every same-key entry strictly before it in input order has a
strictly smaller click probability. -/
theorem claim8_pick_best : ∀ ads : List ScoredAd,
    (pick_best_per_channel ads).Pairwise (fun a b => a.1 ≠ b.1)
    ∧ ∀ kv ∈ pick_best_per_channel ads,
        kv.2 ∈ ads ∧ adKey kv.2 = kv.1
        ∧ (∀ b ∈ ads, adKey b = kv.1 →
            b.click_probability ≤ kv.2.click_probability)
        ∧ ∃ l1 l2, ads = l1 ++ kv.2 :: l2
            ∧ ∀ b ∈ l1, adKey b = kv.1 →
                b.click_probability < kv.2.click_probability := by
  intro ads
  have h0 : BestInv [] [] := ⟨List.Pairwise.nil, by simp, by simp⟩
  have h := foldl_bestStep_inv ads [] [] h0
  rw [List.nil_append] at h
  obtain ⟨hpw, hent, _⟩ := h
  refine ⟨hpw, ?_⟩
  intro kv hkv
  obtain ⟨hkey, l1, l2, hsplit, hl1, hl2⟩ := hent kv hkv
  have hmem : kv.2 ∈ ads := by
    rw [hsplit]
    exact List.mem_append_right _ (List.mem_cons_self _ _)
  refine ⟨hmem, hkey, ?_, l1, l2, hsplit, hl1⟩
  intro b hb hkeyb
  rw [hsplit] at hb
  rcases List.mem_append.mp hb with hb | hb
  · exact le_of_lt (hl1 b hb hkeyb)
  · rcases List.mem_cons.mp hb with rfl | hb
    · exact le_rfl
    · exact hl2 b hb hkeyb

/-- C8 (witness): the spec's own example — three `"vk"` ads for product
`"P"` with click probabilities `0.2 / 0.5 / 0.3` plus one `"telegram"`
and one `"yandex_ads"` ad.  The theorem applied to the `"vk"` entry of
the selection shows it is an input element and dominates the `0.2`
entry. -/
theorem claim8_witness :
    (⟨"P", "vk", 0.5, 0.4⟩ : ScoredAd) ∈
      [(⟨"P", "vk", 0.2, 0.1⟩ : ScoredAd), ⟨"P", "vk", 0.5, 0.4⟩, ⟨"P", "vk", 0.3, 0.2⟩,
       ⟨"P", "telegram", 0.4, 0.3⟩, ⟨"P", "yandex_ads", 0.1, 0.05⟩]
    ∧ (⟨"P", "vk", 0.2, 0.1⟩ : ScoredAd).click_probability
        ≤ (⟨"P", "vk", 0.5, 0.4⟩ : ScoredAd).click_probability := by
  have hpick :
      pick_best_per_channel
        [⟨"P", "vk", 0.2, 0.1⟩, ⟨"P", "vk", 0.5, 0.4⟩, ⟨"P", "vk", 0.3, 0.2⟩,
         ⟨"P", "telegram", 0.4, 0.3⟩, ⟨"P", "yandex_ads", 0.1, 0.05⟩]
      = [(("P", "vk"), ⟨"P", "vk", 0.5, 0.4⟩),
         (("P", "telegram"), ⟨"P", "telegram", 0.4, 0.3⟩),
         (("P", "yandex_ads"), ⟨"P", "yandex_ads", 0.1, 0.05⟩)] := by
    norm_num [pick_best_per_channel, bestStep, lookupKey, dictSet, adKey]
    simp
  have h := (claim8_pick_best
      [⟨"P", "vk", 0.2, 0.1⟩, ⟨"P", "vk", 0.5, 0.4⟩, ⟨"P", "vk", 0.3, 0.2⟩,
       ⟨"P", "telegram", 0.4, 0.3⟩, ⟨"P", "yandex_ads", 0.1, 0.05⟩]).2
      (("P", "vk"), ⟨"P", "vk", 0.5, 0.4⟩)
      (by rw [hpick]; exact List.mem_cons_self _ _)
  exact ⟨h.1, h.2.2.1 ⟨"P", "vk", 0.2, 0.1⟩ (List.mem_cons_self _ _) rfl⟩
